import Mathlib

set_option maxRecDepth 16000

/-!
Verification of the Rapid-CDH pin-manager / ADS1118 driver core.

This file shallowly embeds the two core modules of the repository:

* `src/shared/drivers/ads1118.py` — the ADS1118 SPI ADC driver
  (configuration-register encoding, parameter validation, result decoding,
  and the `take_sample` retry/polling state machine), and
* `src/shared/lib/pin_manager.py` — the pin-ownership / managed-device
  resource layer (`_ManagedPin`, `ManagedDevice`, `_DefaultPinClaimer`,
  `PinManager`).

Python machine-level conventions used by the embedding:
* Python `int` is unbounded, so it is modelled by `ℤ`/`ℕ` directly;
  bitwise operations on non-negative values are `Nat` bitwise operations.
* Python `float` literals appearing in the driver (`0.03125`, `187.5e-6`,
  `0.030`, ...) are modelled as exact rationals `ℚ`.
* Python `x >> k` on `int` is an arithmetic (floor) shift, i.e. `Int.fdiv x (2^k)`.
* A `dict` lookup that can miss (`ADS1118_LSB_SIZES[fsr]`) returns an `Option`.
* Stateful code is modelled by explicit state passing; an exception raised
  partway through a mutation sequence is modelled by returning the partially
  mutated state together with the error.
-/

namespace RapidCDH

/-! ## ADS1118 driver constants (`ads1118.py`, classes `MuxSelection`,
`InputRange`, `SamplingRate`) -/

namespace MuxSelection

def CH0_SINGLE_END : ℕ := 4
def CH1_SINGLE_END : ℕ := 5
def CH2_SINGLE_END : ℕ := 6
def CH3_SINGLE_END : ℕ := 7
def CH0_CH1_DIFF : ℕ := 0
def CH0_CH3_DIFF : ℕ := 1
def CH1_CH3_DIFF : ℕ := 2
def CH2_CH3_DIFF : ℕ := 3
def TEMPERATURE : ℕ := 255

end MuxSelection

namespace InputRange

def FSR_6_144V : ℕ := 0
def FSR_4_096V : ℕ := 1
def FSR_2_048V : ℕ := 2
def FSR_1_024V : ℕ := 3
def FSR_0_512V : ℕ := 4
def FSR_0_256V : ℕ := 5

end InputRange

namespace SamplingRate

def RATE_8 : ℕ := 0
def RATE_16 : ℕ := 1
def RATE_32 : ℕ := 2
def RATE_64 : ℕ := 3
def RATE_128 : ℕ := 4
def RATE_250 : ℕ := 5
def RATE_475 : ℕ := 6
def RATE_860 : ℕ := 7

end SamplingRate

/-- The `ADS1118_LSB_SIZES` dict from `ads1118.py`: maps an `InputRange` value to
the LSB size in volts.  A missing key (e.g. `6` or `7`) is a `KeyError` in
Python, modelled as `none`. -/
def ADS1118_LSB_SIZES (fsr : ℕ) : Option ℚ :=
  if fsr = InputRange.FSR_6_144V then some 187.5e-6
  else if fsr = InputRange.FSR_4_096V then some 125e-6
  else if fsr = InputRange.FSR_2_048V then some 62.5e-6
  else if fsr = InputRange.FSR_1_024V then some 31.25e-6
  else if fsr = InputRange.FSR_0_512V then some 15.625e-6
  else if fsr = InputRange.FSR_0_256V then some 7.8125e-6
  else none

/-- Constant `ADS1118_SPI_RESET_TIME = 0.030  # ideally 28ms, but give it some wiggle room`.
The Python constant is a float denoting a duration in SECONDS (the sibling
constants `ADS1118_SPS_DELAYS` are passed to `asyncio.sleep`, which takes
seconds). -/
def ADS1118_SPI_RESET_TIME : ℚ := 0.030

namespace Ads1118

/-- Source `Ads1118._build_config_register_bytearray(channel, input_range, sample_rate)`:
returns the two config-register bytes
`byte0 = (0b1 << 7) | ((channel & 0b111) << 4) | ((input_range & 0b111) << 1) | 1`,
`byte1 = ((sample_rate & 0b111) << 5) | ((channel == MuxSelection.TEMPERATURE) << 4) | 0b1010`. -/
def build_config_register_bytearray (channel input_range sample_rate : ℕ) : ℕ × ℕ :=
  ((1 <<< 7) ||| ((channel &&& 7) <<< 4) ||| ((input_range &&& 7) <<< 1) ||| 1,
   ((sample_rate &&& 7) <<< 5) |||
     ((if channel = MuxSelection.TEMPERATURE then 1 else 0) <<< 4) ||| 10)

/-- Source `Ads1118._int_from_two_bytes_signed_be(buffer)`:
`output = 0; if buffer[0] & 0x80: output -= 65536; output += 256*buffer[0]; output += buffer[1]`. -/
def int_from_two_bytes_signed_be (b0 b1 : ℕ) : ℤ :=
  (if b0 &&& 0x80 ≠ 0 then (0 : ℤ) - 65536 else 0) + 256 * (b0 : ℤ) + (b1 : ℤ)

/-- Python's arithmetic right shift `x >> k` on `int` (floor division by `2^k`). -/
def pyShiftRight (x : ℤ) (k : ℕ) : ℤ := Int.fdiv x (2 ^ k)

/-- Source `Ads1118._temperature_from_bytes(receive_buffer)`:
`reading = _int_from_two_bytes_signed_be(receive_buffer) >> 2; return reading * 0.03125`. -/
def temperature_from_bytes (b0 b1 : ℕ) : ℚ :=
  (pyShiftRight (int_from_two_bytes_signed_be b0 b1) 2 : ℚ) * 0.03125

/-- Source `Ads1118._voltage_from_bytes(receive_buffer, fsr)`:
`lsb_size = ADS1118_LSB_SIZES[fsr]; return _int_from_two_bytes_signed_be(receive_buffer) * lsb_size`.
The dict lookup can raise `KeyError` (modelled by `none`). -/
def voltage_from_bytes (b0 b1 : ℕ) (fsr : ℕ) : Option ℚ :=
  (ADS1118_LSB_SIZES fsr).map (fun lsb => (int_from_two_bytes_signed_be b0 b1 : ℚ) * lsb)

end Ads1118

/-- The positive full-scale voltage of each of the six defined input ranges
(§8 of the spec calls this `range`; the datasheet value behind each
`InputRange.FSR_*` constant). Used only to state claims about LSB sizes. -/
def fullScale (fsr : ℕ) : ℚ :=
  if fsr = 0 then 6.144
  else if fsr = 1 then 4.096
  else if fsr = 2 then 2.048
  else if fsr = 3 then 1.024
  else if fsr = 4 then 0.512
  else if fsr = 5 then 0.256
  else 0

/-! ## Parameter validation (`Ads1118._check_*_param`)

`take_sample` may be handed arbitrary Python values for `channel`,
`input_range` and `sample_rate`; the validators test `isinstance(x, int)`
and range membership with `assert`.  `PyVal` models the relevant slice of
Python's value universe: unbounded integers and (non-integral) floats.
The identity test `channel is MuxSelection.TEMPERATURE` is modelled as
equality with the integer 255 (CPython caches small integers and
MicroPython/CircuitPython small ints are value-identical, so `is` on 255
coincides with `==` against another `int`; a `float` is never `is` an
`int`). -/

inductive PyVal
  | int (n : ℤ)
  | float (q : ℚ)
deriving DecidableEq

namespace Ads1118

/-- Source `Ads1118._check_channel_param(channel)`: passes iff `channel is TEMPERATURE`
or (`isinstance(channel, int)` and `0 ≤ channel < 8`); returns `false` where
Python raises `AssertionError`. -/
def check_channel_param (channel : PyVal) : Bool :=
  if channel = PyVal.int 255 then true
  else
    match channel with
    | PyVal.int n => decide (0 ≤ n) && decide (n < 8)
    | PyVal.float _ => false

/-- Source `Ads1118._check_fsr_param(input_range)`: `isinstance(input_range, int)`
and `0 ≤ input_range < 8`. -/
def check_fsr_param (input_range : PyVal) : Bool :=
  match input_range with
  | PyVal.int n => decide (0 ≤ n) && decide (n < 8)
  | PyVal.float _ => false

/-- Source `Ads1118._check_sps_param(sample_rate)`: `isinstance(sample_rate, int)`
and `0 ≤ sample_rate < 8`. -/
def check_sps_param (sample_rate : PyVal) : Bool :=
  match sample_rate with
  | PyVal.int n => decide (0 ≤ n) && decide (n < 8)
  | PyVal.float _ => false

/-- Source `Ads1118._check_sampling_params(channel, input_range, sample_rate)`:
the three validators in sequence (each raising `AssertionError` on failure). -/
def check_sampling_params (channel input_range sample_rate : PyVal) : Bool :=
  check_channel_param channel && check_fsr_param input_range &&
    check_sps_param sample_rate

/-- Extract the `ℕ` behind a validated parameter (validated parameters are
always non-negative ints). -/
def pyToNat : PyVal → ℕ
  | PyVal.int n => n.toNat
  | PyVal.float _ => 0

end Ads1118

/-! ## The `take_sample` protocol loop

`Ads1118.take_sample` validates its parameters, builds the config word, and
then loops: (1) SPI transaction sending the config word, (2) cooperative
sleep, (3) chip-select + DRDY polling phase.  The loop exits only when the
polling phase observed the ready signal; afterwards the start bit of byte 0
is cleared and one more SPI transaction reads the conversion result back.

The environment is abstracted as `ready : ℕ → Bool` (whether the polling
phase of iteration `i` observed the ready signal) and `rx` (the two bytes
delivered by the final read-back transaction).  The loop itself has no
bound in the source, so the embedding is fuel-indexed: `TsResult.outOfFuel`
means the call is still running after `fuel` iterations. -/

/-- One hardware bus interaction performed by `take_sample`. -/
inductive HwAction
  | spiTransfer (b0 b1 : ℕ)
  | drdyPoll
deriving DecidableEq

/-- Outcome of a fuel-bounded run of `take_sample`. -/
inductive TsResult
  | assertError
  | outOfFuel
  | value (v : ℚ)
  | keyError
deriving DecidableEq

namespace Ads1118

/-- The `while not data_ready` loop of `take_sample`, iteration counter `i`:
each iteration re-sends the configuration word and runs one polling phase.
Returns the hardware actions performed and whether ready was observed. -/
def sampleLoop (cfg : ℕ × ℕ) (ready : ℕ → Bool) : ℕ → ℕ → List HwAction × Bool
  | 0, _ => ([], false)
  | fuel + 1, i =>
    let acts := [HwAction.spiTransfer cfg.1 cfg.2, HwAction.drdyPoll]
    if ready i then (acts, true)
    else
      let rest := sampleLoop cfg ready fuel (i + 1)
      (acts ++ rest.1, rest.2)

/-- The final `return` expression of `take_sample`: the received bytes are
decoded as temperature iff the channel is the temperature sentinel, else as
voltage (where the LSB-size dict lookup can raise `KeyError`). -/
def decode_result (ch fsr : ℕ) (rx : ℕ × ℕ) : TsResult :=
  if ch = MuxSelection.TEMPERATURE then
    TsResult.value (temperature_from_bytes rx.1 rx.2)
  else
    match voltage_from_bytes rx.1 rx.2 fsr with
    | some v => TsResult.value v
    | none => TsResult.keyError

/-- Source `Ads1118.take_sample(channel, input_range, sample_rate)` (fuel-bounded).
Validation happens before any bus access; on success the final transaction
re-sends the config word with the start bit cleared (`transmit_buffer[0] & 0x7F`)
and the received bytes are decoded as temperature or voltage. -/
def take_sample (channel input_range sample_rate : PyVal) (ready : ℕ → Bool)
    (rx : ℕ × ℕ) (fuel : ℕ) : List HwAction × TsResult :=
  if ¬ check_sampling_params channel input_range sample_rate then
    ([], TsResult.assertError)
  else
    match sampleLoop (build_config_register_bytearray (pyToNat channel)
        (pyToNat input_range) (pyToNat sample_rate)) ready fuel 0 with
    | (acts, false) => (acts, TsResult.outOfFuel)
    | (acts, true) =>
      (acts ++ [HwAction.spiTransfer
          ((build_config_register_bytearray (pyToNat channel)
              (pyToNat input_range) (pyToNat sample_rate)).1 &&& 0x7F)
          (build_config_register_bytearray (pyToNat channel)
              (pyToNat input_range) (pyToNat sample_rate)).2],
       decode_result (pyToNat channel) (pyToNat input_range) rx)

/-! ### The DRDY busy-wait window (step 4 of the protocol)

The source reads
```py
t0 = time.monotonic_ns()
while (not data_ready) and (
    (time.monotonic_ns() - t0) < ADS1118_SPI_RESET_TIME
):
    data_ready = not drdy.value
```
`time.monotonic_ns()` returns NANOSECONDS, while `ADS1118_SPI_RESET_TIME`
is the float `0.030` (seconds).  The embedding keeps both units exactly as
the source mixes them: `elapsed_ns` is the nanosecond difference, and the
guard compares it (as a rational) against the constant `0.030`. -/

/-- The guard of the DRDY busy-wait loop:
`(not data_ready) and ((time.monotonic_ns() - t0) < ADS1118_SPI_RESET_TIME)`
where the elapsed time is in nanoseconds and the constant is `0.030`. -/
def drdy_poll_guard (data_ready : Bool) (elapsed_ns : ℕ) : Bool :=
  !data_ready && decide ((elapsed_ns : ℚ) < ADS1118_SPI_RESET_TIME)

/-- The DRDY busy-wait loop itself, fuel-bounded.  `drdyVal j` is the level
of the DRDY line at the `j`-th read (`data_ready = not drdy.value`), and
`elapsedAt j` is `time.monotonic_ns() - t0` at the `j`-th guard evaluation. -/
def drdy_poll_loop (drdyVal : ℕ → Bool) (elapsedAt : ℕ → ℕ) :
    ℕ → ℕ → Bool → Bool
  | 0, _, dr => dr
  | fuel + 1, j, dr =>
    if drdy_poll_guard dr (elapsedAt j) then
      drdy_poll_loop drdyVal elapsedAt fuel (j + 1) (!drdyVal j)
    else dr

end Ads1118

end RapidCDH

namespace RapidCDH

open Ads1118

/-! ## Claim theorems for the ADS1118 driver -/

/-- Auxiliary: for bytes below 256, testing bit 7 with `&&& 0x80` is the
same as comparing against 128. -/
lemma and_128_eq_zero_iff (b : ℕ) (h : b < 256) : b &&& 128 = 0 ↔ b < 128 := by
  have hall : ∀ x : Fin 256, ((x : ℕ) &&& 128 = 0 ↔ (x : ℕ) < 128) := by decide
  exact hall ⟨b, h⟩

/-- Auxiliary: closed form of the signed big-endian decode for in-range bytes. -/
lemma int_from_two_bytes_closed (b0 b1 : ℕ) (h0 : b0 < 256) :
    int_from_two_bytes_signed_be b0 b1 =
      (if 128 ≤ b0 then (-65536 : ℤ) else 0) + 256 * (b0 : ℤ) + (b1 : ℤ) := by
  unfold int_from_two_bytes_signed_be
  rcases Nat.lt_or_ge b0 128 with hlt | hge
  · rw [if_neg (by simpa using (and_128_eq_zero_iff b0 h0).2 hlt),
      if_neg (by omega)]
  · rw [if_pos (by intro hz; exact absurd ((and_128_eq_zero_iff b0 h0).1 hz) (by omega)),
      if_pos hge]
    norm_num

/-- C3: the 2-byte configuration word has
`byte0 = start-bit | channel (3 bits, bits 6-4) | range (3 bits, bits 3-1) | reserved 1`
and `byte1 = rate (3 bits, bits 7-5) | TS_MODE flag (bit 4, set iff channel
is the temperature sentinel) | fixed mode bits 0b1010`; in particular the
four literal vectors of the spec hold. -/
theorem config_register_encoding :
    build_config_register_bytearray MuxSelection.CH0_SINGLE_END
        InputRange.FSR_4_096V SamplingRate.RATE_128 = (0xC3, 0x8A) ∧
    build_config_register_bytearray MuxSelection.CH2_CH3_DIFF
        InputRange.FSR_2_048V SamplingRate.RATE_860 = (0xB5, 0xEA) ∧
    build_config_register_bytearray MuxSelection.CH0_CH1_DIFF
        InputRange.FSR_6_144V SamplingRate.RATE_8 = (0x81, 0x0A) ∧
    build_config_register_bytearray MuxSelection.TEMPERATURE
        InputRange.FSR_0_256V SamplingRate.RATE_64 = (0xFB, 0x7A) ∧
    (∀ ch r rt : Fin 8,
      build_config_register_bytearray ch r rt =
        (128 + 16 * (ch : ℕ) + 2 * (r : ℕ) + 1, 32 * (rt : ℕ) + 10)) ∧
    (∀ r rt : Fin 8,
      build_config_register_bytearray MuxSelection.TEMPERATURE r rt =
        (128 + 16 * 7 + 2 * (r : ℕ) + 1, 32 * (rt : ℕ) + 16 + 10)) := by
  refine ⟨by decide, by decide, by decide, by decide, by decide, by decide⟩

/-- C4: the 2-byte result decode is a signed 16-bit big-endian two's
complement integer (range `[-32768, 32767]`, congruent to `256*b0+b1`
mod `2^16`); the temperature decode `(raw >> 2) * 0.03125` matches the
spec's boundary vectors; the per-range LSB size equals the positive
full-scale divided by `2^15`, and the voltage decode matches the spec's
five raw vectors on every one of the six defined ranges. -/
theorem result_decoding (b0 b1 : ℕ) (h0 : b0 < 256) (h1 : b1 < 256) :
    (-32768 ≤ int_from_two_bytes_signed_be b0 b1 ∧
     int_from_two_bytes_signed_be b0 b1 ≤ 32767 ∧
     int_from_two_bytes_signed_be b0 b1 % 65536 =
       (256 * (b0 : ℤ) + (b1 : ℤ)) % 65536) ∧
    (temperature_from_bytes 0x40 0x00 = 128 ∧
     temperature_from_bytes 0x3F 0xFC = 127.96875 ∧
     temperature_from_bytes 0xEC 0x00 = -40 ∧
     temperature_from_bytes 0x00 0x00 = 0 ∧
     temperature_from_bytes 0x00 0x02 = 0 ∧
     temperature_from_bytes 0x00 0x01 = 0) ∧
    (∀ i : Fin 6, ADS1118_LSB_SIZES (i : ℕ) = some (fullScale (i : ℕ) / 2 ^ 15)) ∧
    (∀ i : Fin 6,
      voltage_from_bytes 0x7F 0xFF (i : ℕ) =
          some (fullScale (i : ℕ) * (2 ^ 15 - 1) / 2 ^ 15) ∧
      voltage_from_bytes 0x00 0x01 (i : ℕ) = some (fullScale (i : ℕ) / 2 ^ 15) ∧
      voltage_from_bytes 0x00 0x00 (i : ℕ) = some 0 ∧
      voltage_from_bytes 0xFF 0xFF (i : ℕ) = some (-(fullScale (i : ℕ) / 2 ^ 15)) ∧
      voltage_from_bytes 0x80 0x00 (i : ℕ) = some (-(fullScale (i : ℕ)))) := by
  refine ⟨?_, ?_, ?_, ?_⟩
  · rw [int_from_two_bytes_closed b0 b1 h0]
    split <;> omega
  · refine ⟨?_, ?_, ?_, ?_, ?_, ?_⟩ <;>
    · unfold temperature_from_bytes
      first
      | (rw [(by decide : pyShiftRight (int_from_two_bytes_signed_be 0x40 0x00) 2 = 4096)]; norm_num)
      | (rw [(by decide : pyShiftRight (int_from_two_bytes_signed_be 0x3F 0xFC) 2 = 4095)]; norm_num)
      | (rw [(by decide : pyShiftRight (int_from_two_bytes_signed_be 0xEC 0x00) 2 = -1280)]; norm_num)
      | (rw [(by decide : pyShiftRight (int_from_two_bytes_signed_be 0x00 0x00) 2 = 0)]; norm_num)
      | (rw [(by decide : pyShiftRight (int_from_two_bytes_signed_be 0x00 0x02) 2 = 0)]; norm_num)
      | (rw [(by decide : pyShiftRight (int_from_two_bytes_signed_be 0x00 0x01) 2 = 0)]; norm_num)
  · intro i
    fin_cases i <;>
      norm_num [ADS1118_LSB_SIZES, fullScale, InputRange.FSR_6_144V,
        InputRange.FSR_4_096V, InputRange.FSR_2_048V, InputRange.FSR_1_024V,
        InputRange.FSR_0_512V, InputRange.FSR_0_256V]
  · intro i
    have h7 : int_from_two_bytes_signed_be 0x7F 0xFF = 32767 := by decide
    have hp1 : int_from_two_bytes_signed_be 0x00 0x01 = 1 := by decide
    have hz : int_from_two_bytes_signed_be 0x00 0x00 = 0 := by decide
    have hm1 : int_from_two_bytes_signed_be 0xFF 0xFF = -1 := by decide
    have hmin : int_from_two_bytes_signed_be 0x80 0x00 = -32768 := by decide
    fin_cases i <;>
      norm_num [voltage_from_bytes, ADS1118_LSB_SIZES, fullScale,
        InputRange.FSR_6_144V, InputRange.FSR_4_096V, InputRange.FSR_2_048V,
        InputRange.FSR_1_024V, InputRange.FSR_0_512V, InputRange.FSR_0_256V,
        h7, hp1, hz, hm1, hmin]

/-- Witness for `result_decoding` at byte pair `(0x40, 0x00)`. -/
theorem result_decoding_witness :
    (0x40 : ℕ) < 256 ∧ (0x00 : ℕ) < 256 ∧
      -32768 ≤ int_from_two_bytes_signed_be 0x40 0x00 :=
  ⟨by decide, by decide, (result_decoding 0x40 0x00 (by decide) (by decide)).1.1⟩

/-- Auxiliary: the channel validator accepts exactly the temperature
sentinel and integers in `[0, 8)`. -/
lemma check_channel_param_iff (c : PyVal) :
    check_channel_param c = true ↔
      (c = PyVal.int 255 ∨ ∃ n : ℤ, c = PyVal.int n ∧ 0 ≤ n ∧ n < 8) := by
  unfold check_channel_param
  by_cases hc : c = PyVal.int 255
  · simp [hc]
  · rw [if_neg hc]
    cases c with
    | float q => simp
    | int n =>
      have hn : n ≠ 255 := fun h => hc (by rw [h])
      simp only [Bool.and_eq_true, decide_eq_true_eq, PyVal.int.injEq]
      constructor
      · rintro ⟨h0, h8⟩
        exact Or.inr ⟨n, rfl, h0, h8⟩
      · rintro (h255 | ⟨m, hm, h0, h8⟩)
        · exact absurd h255 hn
        · cases hm
          exact ⟨h0, h8⟩

/-- Auxiliary: the range validator accepts exactly integers in `[0, 8)`. -/
lemma check_fsr_param_iff (c : PyVal) :
    check_fsr_param c = true ↔ ∃ n : ℤ, c = PyVal.int n ∧ 0 ≤ n ∧ n < 8 := by
  unfold check_fsr_param
  cases c with
  | float q => simp
  | int n => simp [PyVal.int.injEq]

/-- Auxiliary: the rate validator accepts exactly integers in `[0, 8)`. -/
lemma check_sps_param_iff (c : PyVal) :
    check_sps_param c = true ↔ ∃ n : ℤ, c = PyVal.int n ∧ 0 ≤ n ∧ n < 8 := by
  unfold check_sps_param
  cases c with
  | float q => simp
  | int n => simp [PyVal.int.injEq]

/-- C5: out-of-domain parameters (non-integers like 4.5, out-of-range ints
like -1, 8, 256) make `take_sample` fail with the validation error before
any hardware action is performed (the action trace is empty); in-domain
parameters (temperature sentinel or ints in `[0,8)`) pass validation, which
then never produces the validation error. -/
theorem validation_before_bus (channel input_range sample_rate : PyVal)
    (ready : ℕ → Bool) (rx : ℕ × ℕ) (fuel : ℕ) :
    (check_sampling_params channel input_range sample_rate = false →
      take_sample channel input_range sample_rate ready rx fuel =
        ([], TsResult.assertError)) ∧
    (check_sampling_params channel input_range sample_rate = true →
      (take_sample channel input_range sample_rate ready rx fuel).2 ≠
        TsResult.assertError) ∧
    (check_sampling_params channel input_range sample_rate = true ↔
      ((channel = PyVal.int 255 ∨ ∃ n : ℤ, channel = PyVal.int n ∧ 0 ≤ n ∧ n < 8) ∧
       (∃ n : ℤ, input_range = PyVal.int n ∧ 0 ≤ n ∧ n < 8) ∧
       (∃ n : ℤ, sample_rate = PyVal.int n ∧ 0 ≤ n ∧ n < 8))) ∧
    (check_channel_param (PyVal.int (-1)) = false ∧
     check_channel_param (PyVal.int 8) = false ∧
     check_channel_param (PyVal.int 256) = false ∧
     check_channel_param (PyVal.float (4.5 : ℚ)) = false ∧
     check_fsr_param (PyVal.int (-1)) = false ∧
     check_fsr_param (PyVal.int 8) = false ∧
     check_fsr_param (PyVal.int 256) = false ∧
     check_fsr_param (PyVal.float (4.5 : ℚ)) = false ∧
     check_sps_param (PyVal.int (-1)) = false ∧
     check_sps_param (PyVal.int 8) = false ∧
     check_sps_param (PyVal.int 256) = false ∧
     check_sps_param (PyVal.float (4.5 : ℚ)) = false) := by
  refine ⟨?_, ?_, ?_, ?_⟩
  · intro h
    unfold take_sample
    rw [if_pos (by simp [h])]
  · intro h
    unfold take_sample
    rw [if_neg (by simp [h])]
    rcases hsl : sampleLoop (build_config_register_bytearray (pyToNat channel)
        (pyToNat input_range) (pyToNat sample_rate)) ready fuel 0 with ⟨acts, b⟩
    cases b with
    | false => simp
    | true =>
      show decode_result (pyToNat channel) (pyToNat input_range) rx ≠ _
      unfold decode_result
      split
      · simp
      · split <;> simp
  · rw [check_sampling_params, Bool.and_eq_true, Bool.and_eq_true,
      check_channel_param_iff, check_fsr_param_iff, check_sps_param_iff]
    tauto
  · refine ⟨?_, ?_, ?_, ?_, ?_, ?_, ?_, ?_, ?_, ?_, ?_, ?_⟩ <;>
      simp [check_channel_param, check_fsr_param, check_sps_param]

/-- Witness for `validation_before_bus`: in-domain parameters
(CH0 single-ended, 4.096 V, 128 sps) pass validation and the call does not
produce the validation error. -/
theorem validation_before_bus_witness :
    check_sampling_params (PyVal.int 4) (PyVal.int 1) (PyVal.int 4) = true ∧
    (take_sample (PyVal.int 4) (PyVal.int 1) (PyVal.int 4)
        (fun _ => true) (0, 0) 1).2 ≠ TsResult.assertError :=
  ⟨by decide,
   (validation_before_bus (PyVal.int 4) (PyVal.int 1) (PyVal.int 4)
      (fun _ => true) (0, 0) 1).2.1 (by decide)⟩

/-- Auxiliary: if the ready signal is never observed, every iteration of the
`take_sample` loop re-sends the configuration word and polls once, and the
loop never reports ready. -/
lemma sampleLoop_never_ready (cfg : ℕ × ℕ) (ready : ℕ → Bool)
    (h : ∀ i, ready i = false) : ∀ fuel i,
    (sampleLoop cfg ready fuel i).2 = false ∧
    (sampleLoop cfg ready fuel i).1.count HwAction.drdyPoll = fuel ∧
    (sampleLoop cfg ready fuel i).1.count (HwAction.spiTransfer cfg.1 cfg.2) = fuel := by
  intro fuel
  induction fuel with
  | zero => intro i; simp [sampleLoop]
  | succ n ih =>
    intro i
    have := ih (i + 1)
    simp only [sampleLoop, h i, if_false, Bool.false_eq_true]
    refine ⟨this.1, ?_, ?_⟩ <;>
      simp [List.count_append, List.count_cons, this.2.1, this.2.2]

/-- Auxiliary: the `take_sample` loop reports ready only if the ready
signal was observed at some iteration. -/
lemma sampleLoop_ready_of_true (cfg : ℕ × ℕ) (ready : ℕ → Bool) :
    ∀ fuel i, (sampleLoop cfg ready fuel i).2 = true → ∃ j, ready j = true := by
  intro fuel
  induction fuel with
  | zero => intro i h; simp [sampleLoop] at h
  | succ n ih =>
    intro i h
    by_cases hr : ready i = true
    · exact ⟨i, hr⟩
    · rw [sampleLoop, if_neg (by simp [Bool.not_eq_true] at hr; simp [hr])] at h
      exact ih (i + 1) h

/-- C9: a ready-detection timeout is never surfaced: with valid parameters,
if the ready signal is never observed then for every fuel bound the call is
still running (`outOfFuel`, never an error result), having re-sent the
2-byte configuration word and run one polling phase on every one of its
`fuel` iterations; and the call returns a value only if ready was observed
at some iteration. -/
theorem timeout_retry_unbounded (channel input_range sample_rate : PyVal)
    (ready : ℕ → Bool) (rx : ℕ × ℕ)
    (hvalid : check_sampling_params channel input_range sample_rate = true) :
    ((∀ i, ready i = false) → ∀ fuel,
      (take_sample channel input_range sample_rate ready rx fuel).2 =
        TsResult.outOfFuel ∧
      (take_sample channel input_range sample_rate ready rx fuel).1.count
        HwAction.drdyPoll = fuel ∧
      (take_sample channel input_range sample_rate ready rx fuel).1.count
        (HwAction.spiTransfer
          (build_config_register_bytearray (pyToNat channel)
            (pyToNat input_range) (pyToNat sample_rate)).1
          (build_config_register_bytearray (pyToNat channel)
            (pyToNat input_range) (pyToNat sample_rate)).2) = fuel) ∧
    (∀ fuel v,
      (take_sample channel input_range sample_rate ready rx fuel).2 =
        TsResult.value v → ∃ j, ready j = true) := by
  constructor
  · intro hnever fuel
    have hl := sampleLoop_never_ready
      (build_config_register_bytearray (pyToNat channel)
        (pyToNat input_range) (pyToNat sample_rate)) ready hnever fuel 0
    unfold take_sample
    rw [if_neg (by simp [hvalid])]
    rcases hsl : sampleLoop (build_config_register_bytearray (pyToNat channel)
        (pyToNat input_range) (pyToNat sample_rate)) ready fuel 0 with ⟨acts, b⟩
    rw [hsl] at hl
    rcases hl with ⟨hb, hc1, hc2⟩
    simp only at hb
    subst hb
    exact ⟨rfl, hc1, hc2⟩
  · intro fuel v hval
    unfold take_sample at hval
    rw [if_neg (by simp [hvalid])] at hval
    rcases hsl : sampleLoop (build_config_register_bytearray (pyToNat channel)
        (pyToNat input_range) (pyToNat sample_rate)) ready fuel 0 with ⟨acts, b⟩
    rw [hsl] at hval
    cases b with
    | false => simp at hval
    | true =>
      exact sampleLoop_ready_of_true _ ready fuel 0 (by rw [hsl])

/-- Witness for `timeout_retry_unbounded`: valid parameters, ready never
observed, fuel 2 — the call is still running after 2 retries. -/
theorem timeout_retry_unbounded_witness :
    check_sampling_params (PyVal.int 4) (PyVal.int 1) (PyVal.int 4) = true ∧
    (take_sample (PyVal.int 4) (PyVal.int 1) (PyVal.int 4)
        (fun _ => false) (0, 0) 2).2 = TsResult.outOfFuel :=
  ⟨by decide,
   ((timeout_retry_unbounded (PyVal.int 4) (PyVal.int 1) (PyVal.int 4)
      (fun _ => false) (0, 0) (by decide)).1 (fun _ => rfl) 2).1⟩

/-- C1 (refuting evaluation): the DRDY busy-wait loop guard compares a
NANOSECOND difference with the float constant `0.030` (SECONDS), so the
intended 30 ms polling window closes as soon as 1 ns has elapsed.  Scenario:
`monotonic_ns` advances 1 ms per guard evaluation and DRDY asserts (goes
low) from the 5th read on — i.e. the device becomes ready 5 ms after
chip-select, well inside the 30 ms window — yet for every fuel bound the
loop terminates with `data_ready = false`.  The final conjuncts record that
10 ms is inside the claimed window while the guard has already stopped
polling, and that the guard does hold at 0 ns elapsed (the loop starts
polling but gives up once any measurable time passes). -/
theorem drdy_poll_window_bug :
    (∀ fuel : ℕ,
      drdy_poll_loop (fun j => decide (j < 5)) (fun j => j * 1000000)
        fuel 0 false = false) ∧
    (fun j : ℕ => decide (j < 5)) 5 = false ∧
    (5 * 1000000 : ℕ) < 30 * 1000000 ∧
    drdy_poll_guard false 10000000 = false ∧
    (10000000 : ℕ) < 30 * 1000000 ∧
    drdy_poll_guard false 0 = true := by
  have hRT : ADS1118_SPI_RESET_TIME = 3 / 100 := by
    norm_num [ADS1118_SPI_RESET_TIME]
  have hguard : ∀ (dr : Bool) (j : ℕ), 1 ≤ j →
      drdy_poll_guard dr (j * 1000000) = false := by
    intro dr j hj
    have h1 : ¬ (((j * 1000000 : ℕ) : ℚ) < ADS1118_SPI_RESET_TIME) := by
      rw [hRT]
      push_neg
      push_cast
      have hq : (1 : ℚ) ≤ (j : ℚ) := by exact_mod_cast hj
      nlinarith
    unfold drdy_poll_guard
    rw [decide_eq_false h1, Bool.and_false]
  have hloop : ∀ (fuel j : ℕ) (dr : Bool), 1 ≤ j →
      drdy_poll_loop (fun j => decide (j < 5)) (fun j => j * 1000000)
        fuel j dr = dr := by
    intro fuel
    cases fuel with
    | zero => intro j dr hj; rfl
    | succ n => intro j dr hj; simp [drdy_poll_loop, hguard dr j hj]
  have hg0 : drdy_poll_guard false 0 = true := by
    have hc0 : (((0 : ℕ) : ℚ) < ADS1118_SPI_RESET_TIME) := by
      rw [hRT]; norm_num
    unfold drdy_poll_guard
    rw [decide_eq_true hc0]
    rfl
  refine ⟨?_, rfl, by norm_num, ?_, by norm_num, hg0⟩
  · intro fuel
    cases fuel with
    | zero => rfl
    | succ n =>
      rw [drdy_poll_loop]
      simp only [hg0, if_true]
      have hd0 : (!(fun j : ℕ => decide (j < 5)) 0) = false := by decide
      simp only [hd0]
      exact hloop n 1 false le_rfl
  · have h1 : ¬ (((10000000 : ℕ) : ℚ) < ADS1118_SPI_RESET_TIME) := by
      rw [hRT]; push_neg; norm_num
    unfold drdy_poll_guard
    rw [decide_eq_false h1, Bool.and_false]

/-! ## The pin manager (`pin_manager.py`)

State model.  Physical pins and managed devices are identified by natural
numbers.  A `Device` mirrors `ManagedDevice`: its fixed `_managed_pins`
list, its optional bound hardware `_instance` (only presence matters, so
`Option Unit`), and its `_active_contexts` counter (a Python `int`, so `ℤ`;
`__exit__` decrements unconditionally).

A `_ManagedPin`'s `claimer` field either points at a `ManagedDevice`
(`some d`) or at a `_DefaultPinClaimer` (`none`); `defaultBound p` records
whether the pin's current default claimer still holds its
`digitalio.DigitalInOut` instance.  `hwCount` counts hardware-binding
constructor invocations (`digitalio.DigitalInOut(...)` inside
`_DefaultPinClaimer.__init__`, and `device_producer()` inside
`ManagedDevice.__enter__`) — a hardware side effect in CircuitPython, since
constructing a peripheral object claims and configures the pin.

An exception raised partway through `__enter__` leaves all mutations made
before the `raise` in place (Python has no rollback), so the stateful
operations return the partially-mutated state together with the error. -/

/-- One `ManagedDevice`'s own state (`pin_manager.py`, class `ManagedDevice`). -/
structure Device where
  pins : List ℕ
  inst : Option Unit
  active : ℤ
deriving DecidableEq

/-- The device a never-constructed id maps to (placeholder; invariant `Inv`
below guarantees reachable states never bind it). -/
def defaultDevice : Device := ⟨[], none, 0⟩

/-- The whole-process pin-manager state: the `PinManager` singleton's
`_pins` and `_devices` dicts plus every `_ManagedPin` / `ManagedDevice` /
`_DefaultPinClaimer` object state. Device ids are allocation-ordered
(`nextDev` is the next fresh id); `keyMap` mirrors the `_devices` dict
(device key = pin list + device-type descriptor, in insertion order). -/
structure PM where
  pinsSeen : List ℕ
  defaultBound : ℕ → Bool
  claimer : ℕ → Option ℕ
  devs : ℕ → Device
  nextDev : ℕ
  keyMap : List ((List ℕ × ℕ) × ℕ)
  hwCount : ℕ

/-- The empty registry built at process start. -/
def initPM : PM :=
  ⟨[], fun _ => false, fun _ => none, fun _ => defaultDevice, 0, [], 0⟩

/-- Errors raised by the pin-manager layer: `RuntimeError("Cannot reclaim
device which is still open")` (the ResourceBusy error) and the
`AttributeError` that `self._instance.deinit()` raises when `_instance` is
`None` (unreachable from reachable states, but kept for fidelity). -/
inductive PMErr
  | resourceBusy
  | attributeError
deriving DecidableEq

/-- Source `ManagedDevice.is_running(self)`: `self._instance is not None`. -/
def is_running (s : PM) (d : ℕ) : Bool := (s.devs d).inst.isSome

/-- Source `ManagedDevice.is_busy(self)`: `self._active_contexts != 0`. -/
def is_busy (s : PM) (d : ℕ) : Bool := decide ((s.devs d).active ≠ 0)

/-- The state after a successful `ManagedDevice._reclaim(self)`: the
instance is dropped and every owned pin gets a fresh `_DefaultPinClaimer`
(whose constructor builds a new `digitalio.DigitalInOut`, one hardware
construction per owned pin). -/
def reclaimedState (s : PM) (d : ℕ) : PM :=
  { s with
    devs := fun i => if i = d then { s.devs d with inst := none } else s.devs i,
    claimer := fun p => if p ∈ (s.devs d).pins then none else s.claimer p,
    defaultBound := fun p => if p ∈ (s.devs d).pins then true else s.defaultBound p,
    hwCount := s.hwCount + (s.devs d).pins.length }

/-- Source `ManagedDevice._reclaim(self)`: raises `RuntimeError` if any context is
still open, else `self._instance.deinit()` (an `AttributeError` if the
instance is already `None`), drops the instance and resets the owned pins'
claimers. On an error the state is unchanged (the `raise` happens before
any mutation). -/
def reclaimDev (s : PM) (d : ℕ) : PM × Option PMErr :=
  if (s.devs d).active ≠ 0 then (s, some PMErr.resourceBusy)
  else
    match (s.devs d).inst with
    | none => (s, some PMErr.attributeError)
    | some _ => (reclaimedState s d, none)

/-- Source `_DefaultPinClaimer._reclaim(self)`: deinitializes the default claimer's
`DigitalInOut` if still present (never raises). Also serves as the body of
`is_running`-guarded reclaim in the first `__enter__` loop, since for a
default claimer `is_running()` is exactly `_instance is not None`. -/
def defaultReclaim (s : PM) (p : ℕ) : PM :=
  if s.defaultBound p then
    { s with defaultBound := fun q => if q = p then false else s.defaultBound q }
  else s

/-- First loop of `ManagedDevice.__enter__`:
`for m_pin in self._managed_pins: if m_pin.claimer.is_running(): m_pin.claimer._reclaim()`.
An exception propagates immediately, keeping prior mutations. -/
def enterLoop1 : PM → List ℕ → PM × Option PMErr
  | s, [] => (s, none)
  | s, p :: rest =>
    match s.claimer p with
    | none => enterLoop1 (defaultReclaim s p) rest
    | some d =>
      if (s.devs d).inst.isSome then
        match reclaimDev s d with
        | (s', none) => enterLoop1 s' rest
        | (s', some e) => (s', some e)
      else enterLoop1 s rest

/-- Second loop of `ManagedDevice.__enter__`:
`for m_pin in self._managed_pins: m_pin.claimer._reclaim()` (unconditional). -/
def enterLoop2 : PM → List ℕ → PM × Option PMErr
  | s, [] => (s, none)
  | s, p :: rest =>
    match s.claimer p with
    | none => enterLoop2 (defaultReclaim s p) rest
    | some d =>
      match reclaimDev s d with
      | (s', none) => enterLoop2 s' rest
      | (s', some e) => (s', some e)

/-- The tail of a non-re-entrant `__enter__`: `self._instance =
self._device_producer()` (one hardware construction), every owned pin's
claimer is set to this device, and `self._active_contexts += 1`. -/
def bindState (s : PM) (b : ℕ) : PM :=
  { s with
    devs := fun i =>
      if i = b then
        { s.devs b with inst := some (), active := (s.devs b).active + 1 }
      else s.devs i,
    claimer := fun p => if p ∈ (s.devs b).pins then some b else s.claimer p,
    hwCount := s.hwCount + 1 }

/-- Source `ManagedDevice.__enter__(self)`: re-entrant fast path if the instance is
already bound; otherwise the two reclaim loops followed by producer
invocation and claimer reassignment. -/
def enterRes (s : PM) (b : ℕ) : PM × Option PMErr :=
  if (s.devs b).inst.isSome then
    ({ s with devs := fun i =>
        if i = b then { s.devs b with active := (s.devs b).active + 1 }
        else s.devs i }, none)
  else
    match enterLoop1 s (s.devs b).pins with
    | (s1, some e) => (s1, some e)
    | (s1, none) =>
      match enterLoop2 s1 (s.devs b).pins with
      | (s2, some e) => (s2, some e)
      | (s2, none) => (bindState s2 b, none)

/-- Source `ManagedDevice.__exit__(self, ...)`: `self._active_contexts -= 1`
(unconditional; never touches the instance or the pin claimers). -/
def exitDev (s : PM) (d : ℕ) : PM :=
  { s with devs := fun i =>
      if i = d then { s.devs d with active := (s.devs d).active - 1 }
      else s.devs i }

/-- Source `PinManager._get_pin_reference(self, pin)`: on first reference a fresh
`_ManagedPin` is built, whose `_DefaultPinClaimer` constructor immediately
builds a `digitalio.DigitalInOut` on the pin (one hardware construction). -/
def ensurePin (s : PM) (p : ℕ) : PM :=
  if p ∈ s.pinsSeen then s
  else
    { s with
      pinsSeen := s.pinsSeen ++ [p],
      defaultBound := fun q => if q = p then true else s.defaultBound q,
      hwCount := s.hwCount + 1 }

/-- Pin-reference resolution for a whole pin list (the list comprehension in
`_create_general_device`). -/
def ensurePins (s : PM) : List ℕ → PM
  | [] => s
  | p :: rest => ensurePins (ensurePin s p) rest

/-- Lookup in the `_devices` dict (`device_key = tuple(m_pins + [device_type])`,
where the cached `_ManagedPin` objects make two identical pin lists produce
the identical key). -/
def findKey (m : List ((List ℕ × ℕ) × ℕ)) (k : List ℕ × ℕ) : Option ℕ :=
  match m with
  | [] => none
  | e :: rest => if e.1 = k then some e.2 else findKey rest k

/-- Source `PinManager._create_general_device(self, pins, device_type, device_producer)`:
resolves the pins, returns the cached `ManagedDevice` for the key if present,
else registers a fresh one (with no bound instance and zero contexts).
Returns the new state and the id of the returned device. -/
def createDev (s : PM) (pins : List ℕ) (dty : ℕ) : PM × ℕ :=
  match findKey (ensurePins s pins).keyMap (pins, dty) with
  | some i => (ensurePins s pins, i)
  | none =>
    ({ ensurePins s pins with
        devs := fun i =>
          if i = (ensurePins s pins).nextDev then ⟨pins, none, 0⟩
          else (ensurePins s pins).devs i,
        nextDev := (ensurePins s pins).nextDev + 1,
        keyMap := (ensurePins s pins).keyMap ++ [((pins, dty), (ensurePins s pins).nextDev)] },
     (ensurePins s pins).nextDev)

/-! ### Reachability

The public operations on the pin-manager layer: device creation
(`create_digital_in_out` / `create_spi` / `create_i2c` / `create_analog_in`,
all through `_create_general_device`), scoped acquisition (`__enter__`,
either outcome), scope exit (`__exit__`), and `_reclaim`.  `__exit__` is
only ever invoked by the `with` statement to close a context previously
opened by a successful `__enter__`, so at the moment of an exit the device
has a positive context count; `enter`/`exit`/`reclaim` address devices that
were actually handed out by the registry (`d < nextDev`). -/

/-- One public pin-manager operation. -/
inductive Step : PM → PM → Prop
  | create (s : PM) (pins : List ℕ) (dty : ℕ) : Step s (createDev s pins dty).1
  | enter (s : PM) (d : ℕ) (h : d < s.nextDev) : Step s (enterRes s d).1
  | exitScope (s : PM) (d : ℕ) (h : d < s.nextDev)
      (hopen : 0 < (s.devs d).active) : Step s (exitDev s d)
  | reclaim (s : PM) (d : ℕ) (h : d < s.nextDev) : Step s (reclaimDev s d).1

/-- States reachable from the empty registry by public operations. -/
inductive Reachable : PM → Prop
  | init : Reachable initPM
  | step {s s' : PM} : Reachable s → Step s s' → Reachable s'

/-- The pin-manager data-model invariant:
(1) context counts are non-negative; (2) a busy device is running;
(3) a pin's claimer is a running device owning that pin;
(4) a running device claims every one of its pins;
(5) never-allocated ids hold the placeholder device. -/
def Inv (s : PM) : Prop :=
  (∀ d, 0 ≤ (s.devs d).active) ∧
  (∀ d, (s.devs d).active ≠ 0 → (s.devs d).inst.isSome = true) ∧
  (∀ p d, s.claimer p = some d →
    (s.devs d).inst.isSome = true ∧ p ∈ (s.devs d).pins) ∧
  (∀ d, (s.devs d).inst.isSome = true →
    ∀ p ∈ (s.devs d).pins, s.claimer p = some d) ∧
  (∀ d, s.nextDev ≤ d → s.devs d = defaultDevice)

/-! ### Field-preservation lemmas -/

@[simp] lemma defaultReclaim_claimer (s : PM) (p : ℕ) :
    (defaultReclaim s p).claimer = s.claimer := by
  unfold defaultReclaim; split <;> rfl

@[simp] lemma defaultReclaim_devs (s : PM) (p : ℕ) :
    (defaultReclaim s p).devs = s.devs := by
  unfold defaultReclaim; split <;> rfl

@[simp] lemma defaultReclaim_nextDev (s : PM) (p : ℕ) :
    (defaultReclaim s p).nextDev = s.nextDev := by
  unfold defaultReclaim; split <;> rfl

@[simp] lemma defaultReclaim_keyMap (s : PM) (p : ℕ) :
    (defaultReclaim s p).keyMap = s.keyMap := by
  unfold defaultReclaim; split <;> rfl

@[simp] lemma defaultReclaim_hwCount (s : PM) (p : ℕ) :
    (defaultReclaim s p).hwCount = s.hwCount := by
  unfold defaultReclaim; split <;> rfl

lemma reclaimedState_devs (s : PM) (d i : ℕ) :
    (reclaimedState s d).devs i =
      if i = d then { s.devs d with inst := none } else s.devs i := rfl

lemma reclaimedState_claimer (s : PM) (d p : ℕ) :
    (reclaimedState s d).claimer p =
      if p ∈ (s.devs d).pins then none else s.claimer p := rfl

@[simp] lemma reclaimedState_nextDev (s : PM) (d : ℕ) :
    (reclaimedState s d).nextDev = s.nextDev := rfl

lemma reclaimedState_devs_pins (s : PM) (d i : ℕ) :
    ((reclaimedState s d).devs i).pins = (s.devs i).pins := by
  rw [reclaimedState_devs]
  split
  · subst i; rfl
  · rfl

lemma reclaimedState_devs_active (s : PM) (d i : ℕ) :
    ((reclaimedState s d).devs i).active = (s.devs i).active := by
  rw [reclaimedState_devs]
  split
  · subst i; rfl
  · rfl

lemma bindState_devs (s : PM) (b i : ℕ) :
    (bindState s b).devs i =
      if i = b then { s.devs b with inst := some (), active := (s.devs b).active + 1 }
      else s.devs i := rfl

lemma bindState_claimer (s : PM) (b p : ℕ) :
    (bindState s b).claimer p =
      if p ∈ (s.devs b).pins then some b else s.claimer p := rfl

@[simp] lemma bindState_nextDev (s : PM) (b : ℕ) :
    (bindState s b).nextDev = s.nextDev := rfl

lemma exitDev_devs (s : PM) (d i : ℕ) :
    (exitDev s d).devs i =
      if i = d then { s.devs d with active := (s.devs d).active - 1 }
      else s.devs i := rfl

@[simp] lemma exitDev_claimer (s : PM) (d : ℕ) :
    (exitDev s d).claimer = s.claimer := rfl

@[simp] lemma exitDev_nextDev (s : PM) (d : ℕ) :
    (exitDev s d).nextDev = s.nextDev := rfl

@[simp] lemma ensurePin_devs (s : PM) (p : ℕ) :
    (ensurePin s p).devs = s.devs := by
  unfold ensurePin; split <;> rfl

@[simp] lemma ensurePin_claimer (s : PM) (p : ℕ) :
    (ensurePin s p).claimer = s.claimer := by
  unfold ensurePin; split <;> rfl

@[simp] lemma ensurePin_nextDev (s : PM) (p : ℕ) :
    (ensurePin s p).nextDev = s.nextDev := by
  unfold ensurePin; split <;> rfl

@[simp] lemma ensurePin_keyMap (s : PM) (p : ℕ) :
    (ensurePin s p).keyMap = s.keyMap := by
  unfold ensurePin; split <;> rfl

@[simp] lemma ensurePins_devs (l : List ℕ) : ∀ s : PM, (ensurePins s l).devs = s.devs := by
  induction l with
  | nil => intro s; rfl
  | cons p rest ih => intro s; rw [ensurePins, ih, ensurePin_devs]

@[simp] lemma ensurePins_claimer (l : List ℕ) : ∀ s : PM,
    (ensurePins s l).claimer = s.claimer := by
  induction l with
  | nil => intro s; rfl
  | cons p rest ih => intro s; rw [ensurePins, ih, ensurePin_claimer]

@[simp] lemma ensurePins_nextDev (l : List ℕ) : ∀ s : PM,
    (ensurePins s l).nextDev = s.nextDev := by
  induction l with
  | nil => intro s; rfl
  | cons p rest ih => intro s; rw [ensurePins, ih, ensurePin_nextDev]

@[simp] lemma ensurePins_keyMap (l : List ℕ) : ∀ s : PM,
    (ensurePins s l).keyMap = s.keyMap := by
  induction l with
  | nil => intro s; rfl
  | cons p rest ih => intro s; rw [ensurePins, ih, ensurePin_keyMap]

/-! ### Invariant preservation -/

lemma inv_defaultReclaim {s : PM} (h : Inv s) (p : ℕ) : Inv (defaultReclaim s p) := by
  obtain ⟨h1, h2, h3, h4, h5⟩ := h
  refine ⟨?_, ?_, ?_, ?_, ?_⟩ <;>
    simp only [defaultReclaim_devs, defaultReclaim_claimer, defaultReclaim_nextDev]
  · exact h1
  · exact h2
  · exact h3
  · exact h4
  · exact h5

lemma inv_reclaimedState {s : PM} (h : Inv s) {d : ℕ}
    (ha : (s.devs d).active = 0) (hb : (s.devs d).inst.isSome = true) :
    Inv (reclaimedState s d) := by
  obtain ⟨h1, h2, h3, h4, h5⟩ := h
  refine ⟨?_, ?_, ?_, ?_, ?_⟩
  · intro e
    rw [reclaimedState_devs_active]
    exact h1 e
  · intro e he
    rw [reclaimedState_devs_active] at he
    rw [reclaimedState_devs]
    split
    · subst e
      exact absurd ha he
    · exact h2 e he
  · intro p e hpe
    rw [reclaimedState_claimer] at hpe
    by_cases hp : p ∈ (s.devs d).pins
    · rw [if_pos hp] at hpe
      exact absurd hpe (by simp)
    · rw [if_neg hp] at hpe
      obtain ⟨he1, he2⟩ := h3 p e hpe
      have hed : e ≠ d := by
        intro hcontra
        subst hcontra
        exact hp he2
      rw [reclaimedState_devs, if_neg hed]
      exact ⟨he1, he2⟩
  · intro e he p hp
    rw [reclaimedState_devs] at he
    by_cases hed : e = d
    · rw [if_pos hed] at he
      exact absurd he (by simp)
    · rw [if_neg hed] at he
      rw [reclaimedState_devs_pins] at hp
      have hpd : p ∉ (s.devs d).pins := by
        intro hpd
        exact hed (Option.some.inj ((h4 e he p hp).symm.trans (h4 d hb p hpd)))
      rw [reclaimedState_claimer, if_neg hpd]
      exact h4 e he p hp
  · intro e he
    rw [reclaimedState_devs]
    by_cases hed : e = d
    · subst hed
      rw [if_pos rfl]
      have hdef : s.devs e = defaultDevice := h5 e he
      rw [hdef] at hb
      exact absurd hb (by simp [defaultDevice])
    · rw [if_neg hed]
      exact h5 e he

lemma inv_reclaimDev {s : PM} (h : Inv s) (d : ℕ) : Inv (reclaimDev s d).1 := by
  unfold reclaimDev
  split
  · exact h
  · split
    · exact h
    · rename_i hact hinst
      exact inv_reclaimedState h (by omega) (by rw [hinst]; rfl)

lemma inv_bindState {s : PM} (h : Inv s) {b : ℕ}
    (hun : (s.devs b).inst.isSome = false) (hb : b < s.nextDev)
    (hcl : ∀ q ∈ (s.devs b).pins, s.claimer q = none) :
    Inv (bindState s b) := by
  obtain ⟨h1, h2, h3, h4, h5⟩ := h
  refine ⟨?_, ?_, ?_, ?_, ?_⟩
  · intro e
    rw [bindState_devs]
    split
    · have := h1 b
      simp only
      omega
    · exact h1 e
  · intro e he
    rw [bindState_devs] at he ⊢
    split
    · rfl
    · rw [if_neg (by assumption)] at he
      exact h2 e he
  · intro p e hpe
    rw [bindState_claimer] at hpe
    by_cases hp : p ∈ (s.devs b).pins
    · rw [if_pos hp] at hpe
      have heb : e = b := (Option.some.inj hpe).symm
      subst heb
      rw [bindState_devs, if_pos rfl]
      exact ⟨rfl, hp⟩
    · rw [if_neg hp] at hpe
      obtain ⟨he1, he2⟩ := h3 p e hpe
      have heb : e ≠ b := by
        intro hcontra
        subst hcontra
        rw [hun] at he1
        exact absurd he1 (by simp)
      rw [bindState_devs, if_neg heb]
      exact ⟨he1, he2⟩
  · intro e he p hp
    rw [bindState_devs] at he
    by_cases heb : e = b
    · subst heb
      rw [bindState_devs, if_pos rfl] at hp
      rw [bindState_claimer, if_pos hp]
    · rw [if_neg heb] at he
      rw [bindState_devs, if_neg heb] at hp
      have hpb : p ∉ (s.devs b).pins := by
        intro hpb
        have := (h4 e he p hp).symm.trans (hcl p hpb)
        exact absurd this (by simp)
      rw [bindState_claimer, if_neg hpb]
      exact h4 e he p hp
  · intro e he
    rw [bindState_devs]
    rw [bindState_nextDev] at he
    split
    · omega
    · exact h5 e he

/-- Transporting the invariant along states that agree on the fields the
invariant mentions. -/
lemma inv_of_eq {s t : PM} (h : Inv s) (hd : t.devs = s.devs)
    (hc : t.claimer = s.claimer) (hn : t.nextDev = s.nextDev) : Inv t := by
  unfold Inv at h ⊢
  rw [hd, hc, hn]
  exact h

/-! ### Behaviour of the two `__enter__` reclaim loops -/

/-- What the first `__enter__` loop guarantees on every path (error or not):
the invariant is preserved, device pin lists / context counts / allocation
counter are untouched, no device becomes running, pin claimers are only ever
cleared, and when the loop completes without raising, every visited pin's
claimer has been cleared. -/
lemma enterLoop1_facts (l : List ℕ) : ∀ s : PM, Inv s →
    Inv (enterLoop1 s l).1 ∧
    (∀ d, ((enterLoop1 s l).1.devs d).pins = (s.devs d).pins) ∧
    (∀ d, ((enterLoop1 s l).1.devs d).active = (s.devs d).active) ∧
    (∀ d, ((enterLoop1 s l).1.devs d).inst.isSome = true →
      (s.devs d).inst.isSome = true) ∧
    (∀ q, (enterLoop1 s l).1.claimer q = s.claimer q ∨
      (enterLoop1 s l).1.claimer q = none) ∧
    (enterLoop1 s l).1.nextDev = s.nextDev ∧
    ((enterLoop1 s l).2 = none → ∀ q ∈ l, (enterLoop1 s l).1.claimer q = none) := by
  induction l with
  | nil =>
    intro s hInv
    exact ⟨hInv, fun _ => rfl, fun _ => rfl, fun _ h => h, fun _ => Or.inl rfl,
      rfl, fun _ q hq => absurd hq (List.not_mem_nil q)⟩
  | cons p rest ih =>
    intro s hInv
    rcases hclaim : s.claimer p with _ | d
    · -- default claimer
      have ht : enterLoop1 s (p :: rest) = enterLoop1 (defaultReclaim s p) rest := by
        rw [enterLoop1, hclaim]
      obtain ⟨i1, i2, i3, i4, i5, i6, i7⟩ :=
        ih (defaultReclaim s p) (inv_defaultReclaim hInv p)
      rw [ht]
      rw [defaultReclaim_devs] at i2 i3 i4
      rw [defaultReclaim_claimer] at i5
      rw [defaultReclaim_nextDev] at i6
      refine ⟨i1, i2, i3, i4, i5, i6, ?_⟩
      · intro hok q hq
        rcases List.mem_cons.1 hq with hqp | hqr
        · subst hqp
          rcases i5 q with h | h
          · rw [h]; exact hclaim
          · exact h
        · exact i7 hok q hqr
    · -- claimer is a managed device d; by the invariant it is running
      have hrun : (s.devs d).inst.isSome = true := (hInv.2.2.1 p d hclaim).1
      have hpd : p ∈ (s.devs d).pins := (hInv.2.2.1 p d hclaim).2
      by_cases hact : (s.devs d).active ≠ 0
      · -- busy claimant: RuntimeError, state unchanged
        have ht : enterLoop1 s (p :: rest) = (s, some PMErr.resourceBusy) := by
          rw [enterLoop1, hclaim]
          simp only [hrun, if_true]
          unfold reclaimDev
          rw [if_pos hact]
        rw [ht]
        exact ⟨hInv, fun _ => rfl, fun _ => rfl, fun _ h => h, fun _ => Or.inl rfl,
          rfl, fun hok => absurd hok (by simp)⟩
      · -- idle claimant: reclaimed, loop continues
        push_neg at hact
        obtain ⟨u, hu⟩ := Option.isSome_iff_exists.1 hrun
        have ht : enterLoop1 s (p :: rest) =
            enterLoop1 (reclaimedState s d) rest := by
          rw [enterLoop1, hclaim]
          simp only [hrun, if_true]
          unfold reclaimDev
          rw [if_neg (by omega), hu]
        obtain ⟨i1, i2, i3, i4, i5, i6, i7⟩ :=
          ih (reclaimedState s d) (inv_reclaimedState hInv hact hrun)
        rw [ht]
        refine ⟨i1, ?_, ?_, ?_, ?_, ?_, ?_⟩
        · intro e
          rw [i2, reclaimedState_devs_pins]
        · intro e
          rw [i3, reclaimedState_devs_active]
        · intro e he
          have := i4 e he
          rw [reclaimedState_devs] at this
          by_cases hed : e = d
          · rw [if_pos hed] at this
            exact absurd this (by simp)
          · rw [if_neg hed] at this
            exact this
        · intro q
          rcases i5 q with h | h
          · rw [h, reclaimedState_claimer]
            split
            · exact Or.inr rfl
            · exact Or.inl rfl
          · exact Or.inr h
        · rw [i6, reclaimedState_nextDev]
        · intro hok q hq
          rcases List.mem_cons.1 hq with hqp | hqr
          · subst hqp
            rcases i5 q with h | h
            · rw [h, reclaimedState_claimer, if_pos hpd]
            · exact h
          · exact i7 hok q hqr

/-- If every claimant of the visited pins is idle, the first `__enter__`
loop completes without raising. -/
lemma enterLoop1_quiet_ok (l : List ℕ) : ∀ s : PM, Inv s →
    (∀ q ∈ l, ∀ C, s.claimer q = some C → (s.devs C).active = 0) →
    (enterLoop1 s l).2 = none := by
  induction l with
  | nil => intro s _ _; rfl
  | cons p rest ih =>
    intro s hInv hquiet
    rcases hclaim : s.claimer p with _ | d
    · rw [enterLoop1, hclaim]
      exact ih (defaultReclaim s p) (inv_defaultReclaim hInv p)
        (fun q hq C hC => by
          rw [defaultReclaim_devs]
          exact hquiet q (List.mem_cons_of_mem p hq) C
            (by rw [← defaultReclaim_claimer s p]; exact hC))
    · have hrun : (s.devs d).inst.isSome = true := (hInv.2.2.1 p d hclaim).1
      have hact : (s.devs d).active = 0 :=
        hquiet p (List.mem_cons_self p rest) d hclaim
      obtain ⟨u, hu⟩ := Option.isSome_iff_exists.1 hrun
      rw [enterLoop1, hclaim]
      simp only [hrun, if_true]
      unfold reclaimDev
      rw [if_neg (by omega), hu]
      exact ih (reclaimedState s d) (inv_reclaimedState hInv hact hrun)
        (fun q hq C hC => by
          rw [reclaimedState_claimer] at hC
          by_cases hqm : q ∈ (s.devs d).pins
          · rw [if_pos hqm] at hC
            exact absurd hC (by simp)
          · rw [if_neg hqm] at hC
            rw [reclaimedState_devs_active]
            exact hquiet q (List.mem_cons_of_mem p hq) C hC)

/-- If some visited pin is claimed by a busy device, the first `__enter__`
loop raises the ResourceBusy `RuntimeError`, and the busy claimant's own
state is untouched by the partial loop execution. -/
lemma enterLoop1_busy (l : List ℕ) : ∀ s A P, Inv s →
    s.claimer P = some A → (s.devs A).active ≠ 0 → P ∈ l →
    ∃ s', enterLoop1 s l = (s', some PMErr.resourceBusy) ∧
      s'.devs A = s.devs A := by
  induction l with
  | nil => intro s A P _ _ _ hP; exact absurd hP (List.not_mem_nil P)
  | cons p rest ih =>
    intro s A P hInv hPA hbusy hP
    rcases hclaim : s.claimer p with _ | d
    · have hpP : p ≠ P := by
        intro hcontra
        subst hcontra
        rw [hclaim] at hPA
        exact absurd hPA (by simp)
      have hPrest : P ∈ rest := by
        rcases List.mem_cons.1 hP with h | h
        · exact absurd h.symm hpP
        · exact h
      rw [enterLoop1, hclaim]
      obtain ⟨s', hs', hdevs⟩ := ih (defaultReclaim s p) A P
        (inv_defaultReclaim hInv p)
        (by rw [defaultReclaim_claimer]; exact hPA)
        (by rw [defaultReclaim_devs]; exact hbusy) hPrest
      exact ⟨s', hs', by rw [hdevs, defaultReclaim_devs]⟩
    · have hrun : (s.devs d).inst.isSome = true := (hInv.2.2.1 p d hclaim).1
      by_cases hact : (s.devs d).active ≠ 0
      · refine ⟨s, ?_, rfl⟩
        rw [enterLoop1, hclaim]
        simp only [hrun, if_true]
        unfold reclaimDev
        rw [if_pos hact]
      · push_neg at hact
        have hdA : d ≠ A := by
          intro hcontra
          subst hcontra
          exact hbusy hact
        have hPpinsA : P ∈ (s.devs A).pins := (hInv.2.2.1 P A hPA).2
        have hPnotd : P ∉ (s.devs d).pins := by
          intro hPd
          have := (hInv.2.2.2.1 d hrun P hPd).symm.trans hPA
          exact hdA (Option.some.inj this)
        have hpP : p ≠ P := by
          intro hcontra
          subst hcontra
          rw [hclaim] at hPA
          exact hdA (Option.some.inj hPA)
        have hPrest : P ∈ rest := by
          rcases List.mem_cons.1 hP with h | h
          · exact absurd h.symm hpP
          · exact h
        obtain ⟨u, hu⟩ := Option.isSome_iff_exists.1 hrun
        have ht : enterLoop1 s (p :: rest) =
            enterLoop1 (reclaimedState s d) rest := by
          rw [enterLoop1, hclaim]
          simp only [hrun, if_true]
          unfold reclaimDev
          rw [if_neg (by omega), hu]
        rw [ht]
        obtain ⟨s', hs', hdevs⟩ := ih (reclaimedState s d) A P
          (inv_reclaimedState hInv hact hrun)
          (by rw [reclaimedState_claimer, if_neg hPnotd]; exact hPA)
          (by rw [reclaimedState_devs_active]; exact hbusy) hPrest
        refine ⟨s', hs', ?_⟩
        rw [hdevs, reclaimedState_devs, if_neg (Ne.symm hdA)]

/-- The second `__enter__` loop is a no-op on the modelled fields when every
visited pin is back on its default claimer (which is always the case after
a successful first loop). -/
lemma enterLoop2_all_none (l : List ℕ) : ∀ s : PM,
    (∀ q ∈ l, s.claimer q = none) →
    ∃ s', enterLoop2 s l = (s', none) ∧ s'.claimer = s.claimer ∧
      s'.devs = s.devs ∧ s'.nextDev = s.nextDev := by
  induction l with
  | nil => intro s _; exact ⟨s, rfl, rfl, rfl, rfl⟩
  | cons p rest ih =>
    intro s hall
    have hp : s.claimer p = none := hall p (List.mem_cons_self p rest)
    rw [enterLoop2, hp]
    obtain ⟨s', hs', hc, hd, hn⟩ := ih (defaultReclaim s p)
      (fun q hq => by
        rw [defaultReclaim_claimer]
        exact hall q (List.mem_cons_of_mem p hq))
    exact ⟨s', hs',
      by rw [hc, defaultReclaim_claimer],
      by rw [hd, defaultReclaim_devs],
      by rw [hn, defaultReclaim_nextDev]⟩

/-! ### Invariance of the public operations -/

lemma inv_enterRes {s : PM} (h : Inv s) {b : ℕ} (hb : b < s.nextDev) :
    Inv (enterRes s b).1 := by
  unfold enterRes
  split
  · -- re-entrant fast path
    rename_i hrun
    obtain ⟨h1, h2, h3, h4, h5⟩ := h
    refine ⟨?_, ?_, ?_, ?_, ?_⟩
    · intro e
      simp only
      split
      · have := h1 b
        simp only
        omega
      · exact h1 e
    · intro e he
      simp only at he ⊢
      split at he
      · rename_i heb
        subst heb
        rw [if_pos rfl]
        exact hrun
      · rw [if_neg (by assumption)]
        exact h2 e he
    · intro p e hpe
      simp only at hpe ⊢
      obtain ⟨he1, he2⟩ := h3 p e hpe
      split
      · rename_i heb
        subst heb
        exact ⟨he1, he2⟩
      · exact ⟨he1, he2⟩
    · intro e he p hp
      simp only at he hp ⊢
      by_cases heb : e = b
      · subst heb
        rw [if_pos rfl] at he hp
        exact h4 e hrun p hp
      · rw [if_neg heb] at he hp
        exact h4 e he p hp
    · intro e he
      simp only at he ⊢
      split
      · rename_i heb
        subst heb
        omega
      · exact h5 e he
  · -- slow path: reclaim loops then bind
    rename_i hrun
    rcases h1eq : enterLoop1 s (s.devs b).pins with ⟨s1, e1⟩
    obtain ⟨i1, i2, i3, i4, i5, i6, i7⟩ := enterLoop1_facts (s.devs b).pins s h
    rw [h1eq] at i1 i2 i3 i4 i5 i6 i7
    cases e1 with
    | some err => exact i1
    | none =>
      have hcl1 : ∀ q ∈ (s.devs b).pins, s1.claimer q = none := i7 rfl
      obtain ⟨s', hs', hc, hd, hn⟩ :=
        enterLoop2_all_none (s.devs b).pins s1 hcl1
      dsimp only
      rw [hs']
      have hInv1 : Inv s' := inv_of_eq i1 hd hc hn
      have hun : (s'.devs b).inst.isSome = false := by
        rw [hd]
        cases hcase : (s1.devs b).inst.isSome with
        | true => exact absurd (i4 b hcase) hrun
        | false => rfl
      have hb' : b < s'.nextDev := by
        rw [hn, i6]
        exact hb
      have hcl' : ∀ q ∈ (s'.devs b).pins, s'.claimer q = none := by
        intro q hq
        rw [hd, i2] at hq
        rw [hc]
        exact hcl1 q hq
      exact inv_bindState hInv1 hun hb' hcl'

lemma inv_exitDev {s : PM} (h : Inv s) {d : ℕ}
    (hopen : 0 < (s.devs d).active) : Inv (exitDev s d) := by
  obtain ⟨h1, h2, h3, h4, h5⟩ := h
  refine ⟨?_, ?_, ?_, ?_, ?_⟩
  · intro e
    rw [exitDev_devs]
    split
    · rename_i hed
      subst hed
      simp only
      omega
    · exact h1 e
  · intro e he
    rw [exitDev_devs] at he ⊢
    split
    · rename_i hed
      subst hed
      exact h2 e (by omega)
    · rw [if_neg (by assumption)] at he
      exact h2 e he
  · intro p e hpe
    rw [exitDev_claimer] at hpe
    obtain ⟨he1, he2⟩ := h3 p e hpe
    rw [exitDev_devs]
    split
    · rename_i hed
      subst hed
      exact ⟨he1, he2⟩
    · exact ⟨he1, he2⟩
  · intro e he p hp
    rw [exitDev_devs] at he hp
    rw [exitDev_claimer]
    by_cases hed : e = d
    · subst hed
      rw [if_pos rfl] at he hp
      exact h4 e he p hp
    · rw [if_neg hed] at he hp
      exact h4 e he p hp
  · intro e he
    rw [exitDev_nextDev] at he
    rw [exitDev_devs]
    split
    · rename_i hed
      subst hed
      have := h5 e he
      rw [this] at hopen
      exact absurd hopen (by simp [defaultDevice])
    · exact h5 e he

lemma inv_createDev {s : PM} (h : Inv s) (pins : List ℕ) (dty : ℕ) :
    Inv (createDev s pins dty).1 := by
  have hIt : Inv (ensurePins s pins) :=
    inv_of_eq h (ensurePins_devs pins s) (ensurePins_claimer pins s)
      (ensurePins_nextDev pins s)
  unfold createDev
  split
  · exact hIt
  · obtain ⟨h1, h2, h3, h4, h5⟩ := hIt
    refine ⟨?_, ?_, ?_, ?_, ?_⟩
    · intro e
      simp only
      split
      · exact le_refl 0
      · exact h1 e
    · intro e he
      simp only at he ⊢
      split at he
      · exact absurd rfl he
      · rw [if_neg (by assumption)]
        exact h2 e he
    · intro p e hpe
      simp only at hpe ⊢
      obtain ⟨he1, he2⟩ := h3 p e hpe
      have hen : e ≠ (ensurePins s pins).nextDev := by
        intro hcontra
        rw [hcontra, h5 _ (le_refl _)] at he1
        exact absurd he1 (by simp [defaultDevice])
      rw [if_neg hen]
      exact ⟨he1, he2⟩
    · intro e he p hp
      simp only at he hp ⊢
      by_cases hen : e = (ensurePins s pins).nextDev
      · rw [if_pos hen] at he
        exact absurd he (by simp)
      · rw [if_neg hen] at he hp
        exact h4 e he p hp
    · intro e he
      simp only at he ⊢
      rw [if_neg (by omega)]
      exact h5 e (by omega)

lemma inv_initPM : Inv initPM := by
  refine ⟨?_, ?_, ?_, ?_, ?_⟩
  · intro d
    exact le_refl 0
  · intro d hd
    exact absurd rfl hd
  · intro p d hpd
    exact Option.noConfusion hpd
  · intro d hd
    exact absurd hd (by simp [initPM, defaultDevice])
  · intro d _
    rfl

/-- Every state reachable by public pin-manager operations satisfies the
data-model invariant. -/
lemma reachable_inv {s : PM} (h : Reachable s) : Inv s := by
  induction h with
  | init => exact inv_initPM
  | step _ hstep ih =>
    cases hstep with
    | create pins dty => exact inv_createDev ih pins dty
    | enter d hd => exact inv_enterRes ih hd
    | exitScope d hd hopen => exact inv_exitDev ih hopen
    | reclaim d hd => exact inv_reclaimDev ih d

/-! ## Claim theorems for the pin manager -/

/-- C6: in every reachable pin-manager state, every device's
`active_contexts` is non-negative, a busy device (`active_contexts != 0`)
has a bound instance, and the instance is bound exactly when `is_running()`
returns true. -/
theorem lifecycle_invariants (s : PM) (h : Reachable s) (d : ℕ) :
    0 ≤ (s.devs d).active ∧
    ((s.devs d).active ≠ 0 → (s.devs d).inst.isSome = true) ∧
    ((s.devs d).inst.isSome = true ↔ is_running s d = true) := by
  obtain ⟨h1, h2, _, _, _⟩ := reachable_inv h
  exact ⟨h1 d, h2 d, Iff.rfl⟩

/-- Witness for `lifecycle_invariants`: the reachable state obtained by
creating one device on pin 0 and entering it. -/
theorem lifecycle_invariants_witness :
    0 ≤ (((enterRes (createDev initPM [0] 0).1 0).1).devs 0).active ∧
    ((((enterRes (createDev initPM [0] 0).1 0).1).devs 0).active ≠ 0 →
      (((enterRes (createDev initPM [0] 0).1 0).1).devs 0).inst.isSome = true) :=
  ⟨(lifecycle_invariants (enterRes (createDev initPM [0] 0).1 0).1
      (Reachable.step (Reachable.step Reachable.init (Step.create initPM [0] 0))
        (Step.enter (createDev initPM [0] 0).1 0 (by decide))) 0).1,
   (lifecycle_invariants (enterRes (createDev initPM [0] 0).1 0).1
      (Reachable.step (Reachable.step Reachable.init (Step.create initPM [0] 0))
        (Step.enter (createDev initPM [0] 0).1 0 (by decide))) 0).2.1⟩

/-- C7: `__exit__` only decrements the context count; the bound instance,
the pin list, every other device, pin ownership, the registry bookkeeping
and the hardware-construction count are all untouched, and in particular
`is_running` is unchanged (lazy teardown: the binding survives the last
scope exit). -/
theorem exit_only_decrements (s : PM) (d : ℕ) :
    ((exitDev s d).devs d).active = (s.devs d).active - 1 ∧
    ((exitDev s d).devs d).inst = (s.devs d).inst ∧
    ((exitDev s d).devs d).pins = (s.devs d).pins ∧
    (∀ e, e = d ∨ (exitDev s d).devs e = s.devs e) ∧
    (exitDev s d).claimer = s.claimer ∧
    (exitDev s d).defaultBound = s.defaultBound ∧
    (exitDev s d).pinsSeen = s.pinsSeen ∧
    (exitDev s d).keyMap = s.keyMap ∧
    (exitDev s d).nextDev = s.nextDev ∧
    (exitDev s d).hwCount = s.hwCount ∧
    is_running (exitDev s d) d = is_running s d := by
  refine ⟨?_, ?_, ?_, ?_, rfl, rfl, rfl, rfl, rfl, rfl, ?_⟩
  · rw [exitDev_devs, if_pos rfl]
  · rw [exitDev_devs, if_pos rfl]
  · rw [exitDev_devs, if_pos rfl]
  · intro e
    by_cases he : e = d
    · exact Or.inl he
    · exact Or.inr (by rw [exitDev_devs, if_neg he])
  · unfold is_running
    rw [exitDev_devs, if_pos rfl]

/-- Shared displacement lemma: when `B` (unbound) is entered in an
invariant-satisfying state where every claimant of `B`'s pins is idle, the
acquisition succeeds, tears down the bound device `A` sharing pin `P` with
`B`, binds `B`, claims all of `B`'s pins for `B`, and otherwise only clears
pin claimers and leaves all other context counts and pin lists unchanged. -/
lemma enter_displaces_idle (s : PM) (A B P : ℕ) (hInv : Inv s) (hAB : A ≠ B)
    (hPA : P ∈ (s.devs A).pins) (hPB : P ∈ (s.devs B).pins)
    (_hArun : (s.devs A).inst.isSome = true)
    (hBun : (s.devs B).inst.isSome = false)
    (hquiet : ∀ Q ∈ (s.devs B).pins, ∀ C, s.claimer Q = some C →
      (s.devs C).active = 0) :
    ∃ s', enterRes s B = (s', none) ∧
      (s'.devs A).inst = none ∧
      (s'.devs B).inst = some () ∧
      (s'.devs B).active = (s.devs B).active + 1 ∧
      (∀ d, d ≠ B → (s'.devs d).active = (s.devs d).active) ∧
      (∀ d, (s'.devs d).pins = (s.devs d).pins) ∧
      (∀ q ∈ (s.devs B).pins, s'.claimer q = some B) ∧
      (∀ q, q ∉ (s.devs B).pins →
        s'.claimer q = s.claimer q ∨ s'.claimer q = none) := by
  have hok := enterLoop1_quiet_ok (s.devs B).pins s hInv hquiet
  unfold enterRes
  rw [if_neg (by rw [hBun]; exact Bool.false_ne_true)]
  obtain ⟨i1, i2, i3, i4, i5, i6, i7⟩ := enterLoop1_facts (s.devs B).pins s hInv
  rcases h1eq : enterLoop1 s (s.devs B).pins with ⟨s1, e1⟩
  rw [h1eq] at i1 i2 i3 i4 i5 i6 i7 hok
  simp only at hok
  subst hok
  have hcl1 : ∀ q ∈ (s.devs B).pins, s1.claimer q = none := i7 rfl
  obtain ⟨s', hs', hc, hd, hn⟩ :=
    enterLoop2_all_none (s.devs B).pins s1 hcl1
  dsimp only
  rw [hs']
  have hpinsB : (s'.devs B).pins = (s.devs B).pins := by rw [hd, i2]
  refine ⟨bindState s' B, rfl, ?_, ?_, ?_, ?_, ?_, ?_, ?_⟩
  · -- A has been torn down
    have hA1 : (s1.devs A).inst = none := by
      cases hcase : (s1.devs A).inst with
      | none => rfl
      | some u =>
        have hrun1 : (s1.devs A).inst.isSome = true := by rw [hcase]; rfl
        have := i1.2.2.2.1 A hrun1 P (by rw [i2]; exact hPA)
        rw [hcl1 P hPB] at this
        exact Option.noConfusion this
    rw [bindState_devs, if_neg hAB, hd, hA1]
  · rw [bindState_devs, if_pos rfl]
  · rw [bindState_devs, if_pos rfl]
    simp only
    rw [hd, i3]
  · intro d hdB
    rw [bindState_devs, if_neg hdB, hd, i3]
  · intro d
    rw [bindState_devs]
    split
    · rename_i hdB
      subst hdB
      simp only
      rw [hd, i2]
    · rw [hd, i2]
  · intro q hq
    rw [bindState_claimer, if_pos (by rw [hpinsB]; exact hq)]
  · intro q hq
    rw [bindState_claimer, if_neg (by rw [hpinsB]; exact hq), hc]
    exact i5 q

/-- Pin-claimer uniqueness: if `Q` is claimed by `C` and the running device
`D` owns `Q`, then `C = D`. -/
lemma claimer_unique {s : PM} (hInv : Inv s) {Q C D : ℕ}
    (hC : s.claimer Q = some C) (hDrun : (s.devs D).inst.isSome = true)
    (hQD : Q ∈ (s.devs D).pins) : C = D :=
  Option.some.inj (hC.symm.trans (hInv.2.2.2.1 D hDrun Q hQD))

/-- C2 (amended): in an invariant-satisfying pin-manager state with devices
`A ≠ B` sharing pin `P`, `A` bound and `B` unbound:
if `A` is busy, acquiring `B` raises the ResourceBusy `RuntimeError` and
`A`'s state (binding and context count) is unchanged; if `A` is idle and,
additionally, every claimant of every pin of `B` is idle, acquiring `B`
succeeds, tears down `A`'s binding and rebinds `P` to `B`.
(The extra quiescence premise is forced: a third busy device claiming
another of `B`'s pins makes the acquisition fail even though `A` is idle —
see the counterexample.) -/
theorem pin_contention (s : PM) (A B P : ℕ) (hInv : Inv s) (hAB : A ≠ B)
    (hPA : P ∈ (s.devs A).pins) (hPB : P ∈ (s.devs B).pins)
    (hArun : (s.devs A).inst.isSome = true)
    (hBun : (s.devs B).inst.isSome = false) :
    ((s.devs A).active ≠ 0 →
      ∃ s', enterRes s B = (s', some PMErr.resourceBusy) ∧
        s'.devs A = s.devs A) ∧
    ((s.devs A).active = 0 →
      (∀ Q ∈ (s.devs B).pins, ∀ C, s.claimer Q = some C → (s.devs C).active = 0) →
      ∃ s', enterRes s B = (s', none) ∧ (s'.devs A).inst = none ∧
        s'.claimer P = some B ∧ (s'.devs B).inst = some ()) := by
  have hclaimP : s.claimer P = some A := hInv.2.2.2.1 A hArun P hPA
  constructor
  · intro hbusy
    unfold enterRes
    rw [if_neg (by rw [hBun]; exact Bool.false_ne_true)]
    obtain ⟨s', hs', hdevs⟩ :=
      enterLoop1_busy (s.devs B).pins s A P hInv hclaimP hbusy hPB
    rw [hs']
    exact ⟨s', rfl, hdevs⟩
  · intro hidle hquiet
    obtain ⟨s', hs', hAnone, hBsome, _, _, _, hclIn, _⟩ :=
      enter_displaces_idle s A B P hInv hAB hPA hPB hArun hBun hquiet
    exact ⟨s', hs', hAnone, hclIn P hPB, hBsome⟩

/-- The concrete scenario refuting the literal claim: device 0 (`A`, pin 5)
entered and exited (bound, idle); device 1 (`C`, pin 6) entered (bound,
busy); device 2 (`B`, pins `[6, 5]`) never entered. -/
def c2CexState : PM :=
  (enterRes (exitDev (enterRes (createDev (createDev
    (createDev initPM [5] 0).1 [6] 0).1 [6, 5] 0).1 0).1 0) 1).1

/-- C2 counterexample: in `c2CexState`, device `A = 0` is bound and idle and
shares pin 5 with the unbound device `B = 2`, yet `B`'s scoped acquisition
raises ResourceBusy (because the busy device `C = 1` claims `B`'s other
pin 6) — refuting the claim's unconditional "acquiring `B` succeeds". -/
theorem pin_contention_counterexample :
    Reachable c2CexState ∧
    (c2CexState.devs 0).active = 0 ∧ (c2CexState.devs 0).inst = some () ∧
    (0 : ℕ) ≠ 2 ∧ 5 ∈ (c2CexState.devs 0).pins ∧ 5 ∈ (c2CexState.devs 2).pins ∧
    (c2CexState.devs 2).inst = none ∧
    (enterRes c2CexState 2).2 = some PMErr.resourceBusy ∧
    ((enterRes c2CexState 2).1.devs 0).inst = some () := by
  constructor
  · exact Reachable.step
      (Reachable.step
        (Reachable.step
          (Reachable.step
            (Reachable.step
              (Reachable.step Reachable.init (Step.create initPM [5] 0))
              (Step.create (createDev initPM [5] 0).1 [6] 0))
            (Step.create (createDev ((createDev initPM [5] 0).1) [6] 0).1 [6, 5] 0))
          (Step.enter _ 0 (by decide)))
        (Step.exitScope _ 0 (by decide) (by decide)))
      (Step.enter _ 1 (by decide))
  · decide

/-- Witness for `pin_contention` (busy branch): devices 0 and 1 sharing
pin 5, device 0 entered (busy); acquiring device 1 raises ResourceBusy and
leaves device 0 untouched. -/
theorem pin_contention_witness :
    ∃ s', enterRes (enterRes ((createDev ((createDev initPM [5] 0).1)
        [5] 1).1) 0).1 1 = (s', some PMErr.resourceBusy) ∧
      s'.devs 0 =
        ((enterRes ((createDev ((createDev initPM [5] 0).1) [5] 1).1) 0).1).devs 0 :=
  (pin_contention (enterRes ((createDev ((createDev initPM [5] 0).1) [5] 1).1) 0).1
    0 1 5
    (reachable_inv
      (Reachable.step
        (Reachable.step
          (Reachable.step Reachable.init (Step.create initPM [5] 0))
          (Step.create (createDev initPM [5] 0).1 [5] 1))
        (Step.enter _ 0 (by decide))))
    (by decide) (by decide) (by decide) (by decide) (by decide)).1 (by decide)

/-! ### Device-creation caching (C8) -/

lemma ensurePin_seen_self (s : PM) (p : ℕ) : p ∈ (ensurePin s p).pinsSeen := by
  unfold ensurePin
  split
  · assumption
  · simp

lemma ensurePin_seen_mono (s : PM) (p q : ℕ) (h : q ∈ s.pinsSeen) :
    q ∈ (ensurePin s p).pinsSeen := by
  unfold ensurePin
  split
  · exact h
  · simp [h]

lemma ensurePins_seen_mono (l : List ℕ) : ∀ (s : PM) (q : ℕ),
    q ∈ s.pinsSeen → q ∈ (ensurePins s l).pinsSeen := by
  induction l with
  | nil => intro s q h; exact h
  | cons p rest ih =>
    intro s q h
    exact ih (ensurePin s p) q (ensurePin_seen_mono s p q h)

lemma ensurePins_seen (l : List ℕ) : ∀ (s : PM) (p : ℕ), p ∈ l →
    p ∈ (ensurePins s l).pinsSeen := by
  induction l with
  | nil => intro s p h; exact absurd h (List.not_mem_nil p)
  | cons q rest ih =>
    intro s p h
    rcases List.mem_cons.1 h with hpq | hpr
    · subst hpq
      exact ensurePins_seen_mono rest (ensurePin s p) p (ensurePin_seen_self s p)
    · exact ih (ensurePin s q) p hpr

lemma ensurePin_of_seen {s : PM} {p : ℕ} (h : p ∈ s.pinsSeen) :
    ensurePin s p = s := by
  unfold ensurePin
  rw [if_pos h]

lemma ensurePins_of_seen (l : List ℕ) : ∀ s : PM,
    (∀ p ∈ l, p ∈ s.pinsSeen) → ensurePins s l = s := by
  induction l with
  | nil => intro s _; rfl
  | cons p rest ih =>
    intro s h
    rw [ensurePins, ensurePin_of_seen (h p (List.mem_cons_self p rest))]
    exact ih s (fun q hq => h q (List.mem_cons_of_mem p hq))

lemma createDev_pinsSeen (s : PM) (pins : List ℕ) (dty : ℕ) :
    (createDev s pins dty).1.pinsSeen = (ensurePins s pins).pinsSeen := by
  unfold createDev
  split <;> rfl

lemma createDev_hwCount (s : PM) (pins : List ℕ) (dty : ℕ) :
    (createDev s pins dty).1.hwCount = (ensurePins s pins).hwCount := by
  unfold createDev
  split <;> rfl

lemma findKey_append_of_none {m : List ((List ℕ × ℕ) × ℕ)} {k : List ℕ × ℕ}
    (h : findKey m k = none) (n : ℕ) : findKey (m ++ [(k, n)]) k = some n := by
  induction m with
  | nil => simp [findKey]
  | cons e rest ih =>
    rw [findKey] at h
    rw [List.cons_append, findKey]
    split at h
    · exact Option.noConfusion h
    · rw [if_neg (by assumption)]
      exact ih h

lemma createDev_findKey (s : PM) (pins : List ℕ) (dty : ℕ) :
    findKey (createDev s pins dty).1.keyMap (pins, dty) =
      some (createDev s pins dty).2 := by
  unfold createDev
  rcases hf : findKey (ensurePins s pins).keyMap (pins, dty) with _ | i
  · simp only
    exact findKey_append_of_none hf _
  · simp only
    exact hf

lemma createDev_of_found {s : PM} {pins : List ℕ} {dty : ℕ} {i : ℕ}
    (h : findKey (ensurePins s pins).keyMap (pins, dty) = some i) :
    createDev s pins dty = (ensurePins s pins, i) := by
  unfold createDev
  rw [h]

/-- C8 (amended): device creation is idempotent and identity-cached — an
immediately repeated creation call with identical arguments returns the
same device id and leaves the state completely unchanged (in particular no
hardware constructor runs on the repeat); one call adds at most one registry
entry; creation never binds any device's hardware instance (the producer is
not invoked); and when every requested pin is already known to the manager,
creation performs no hardware construction at all.  (The unconditional
"no hardware side effects" of the original claim is refuted by the
counterexample: the first reference to a pin builds that pin's default
claimer, a `digitalio.DigitalInOut`.) -/
theorem device_creation_cached (s : PM) (pins : List ℕ) (dty : ℕ) :
    createDev (createDev s pins dty).1 pins dty =
      ((createDev s pins dty).1, (createDev s pins dty).2) ∧
    (createDev s pins dty).1.keyMap.length ≤ s.keyMap.length + 1 ∧
    (∀ d, ((createDev s pins dty).1.devs d).inst.isSome = true →
      (s.devs d).inst.isSome = true) ∧
    ((∀ p ∈ pins, p ∈ s.pinsSeen) →
      (createDev s pins dty).1.hwCount = s.hwCount) := by
  refine ⟨?_, ?_, ?_, ?_⟩
  · have hseen : ∀ p ∈ pins, p ∈ (createDev s pins dty).1.pinsSeen := by
      intro p hp
      rw [createDev_pinsSeen]
      exact ensurePins_seen pins s p hp
    have hens : ensurePins (createDev s pins dty).1 pins = (createDev s pins dty).1 :=
      ensurePins_of_seen pins (createDev s pins dty).1 hseen
    have hfind : findKey (ensurePins (createDev s pins dty).1 pins).keyMap
        (pins, dty) = some (createDev s pins dty).2 := by
      rw [hens]
      exact createDev_findKey s pins dty
    rw [createDev_of_found hfind, hens]
  · unfold createDev
    rcases hf : findKey (ensurePins s pins).keyMap (pins, dty) with _ | i
    · simp only
      rw [List.length_append, ensurePins_keyMap]
      simp
    · simp only
      rw [ensurePins_keyMap]
      omega
  · intro d
    unfold createDev
    rcases hf : findKey (ensurePins s pins).keyMap (pins, dty) with _ | i
    · simp only
      split
      · intro h
        exact absurd h (by simp)
      · rw [ensurePins_devs]
        exact fun h => h
    · simp only
      rw [ensurePins_devs]
      exact fun h => h
  · intro hseen
    rw [createDev_hwCount, ensurePins_of_seen pins s hseen]

/-! ### The ADS1118 driver's MISO contention (C10) -/

lemma exitDev_devs_pins (s : PM) (d e : ℕ) :
    ((exitDev s d).devs e).pins = (s.devs e).pins := by
  rw [exitDev_devs]
  split
  · rename_i hed; subst hed; rfl
  · rfl

lemma exitDev_devs_inst (s : PM) (d e : ℕ) :
    ((exitDev s d).devs e).inst = (s.devs e).inst := by
  rw [exitDev_devs]
  split
  · rename_i hed; subst hed; rfl
  · rfl

lemma exitDev_devs_active_ne (s : PM) (d e : ℕ) (h : e ≠ d) :
    ((exitDev s d).devs e).active = (s.devs e).active := by
  rw [exitDev_devs, if_neg h]

/-- C10: the Ads1118 constructor puts its ready-signal (DRDY) device on the
same MISO pin used by its SPI-bus device, so the two permanently contend.
In any invariant-satisfying state where the SPI device (pins
`[sck, mosi, miso]`) is bound and idle — the situation after the
config-send phase of `take_sample` — and the DRDY device (pin `[miso]`) is
unbound, entering the DRDY device for the polling phase succeeds by tearing
down the SPI binding (`is_running` of the SPI device becomes false), and
the subsequent read-back acquisition of the SPI device in turn succeeds by
tearing down the DRDY binding. -/
theorem miso_contention (s : PM) (spi drdy sck mosi miso : ℕ)
    (hInv : Inv s) (hneq : spi ≠ drdy)
    (hspiN : spi < s.nextDev) (hdrdyN : drdy < s.nextDev)
    (hspins : (s.devs spi).pins = [sck, mosi, miso])
    (hdpins : (s.devs drdy).pins = [miso])
    (hspirun : (s.devs spi).inst.isSome = true)
    (hspidle : (s.devs spi).active = 0)
    (hdun : (s.devs drdy).inst.isSome = false) :
    ∃ s', enterRes s drdy = (s', none) ∧
      is_running s' spi = false ∧ is_running s' drdy = true ∧
      ∃ s'', enterRes (exitDev s' drdy) spi = (s'', none) ∧
        is_running s'' drdy = false ∧ is_running s'' spi = true := by
  have hmisoSpi : miso ∈ (s.devs spi).pins := by rw [hspins]; simp
  have hmisoDrdy : miso ∈ (s.devs drdy).pins := by rw [hdpins]; simp
  have hdact : (s.devs drdy).active = 0 := by
    by_contra hne
    have := hInv.2.1 drdy hne
    rw [hdun] at this
    exact Bool.false_ne_true this
  -- polling phase: entering the DRDY device displaces the idle SPI device
  have hquiet1 : ∀ Q ∈ (s.devs drdy).pins, ∀ C, s.claimer Q = some C →
      (s.devs C).active = 0 := by
    intro Q hQ C hC
    rw [hdpins, List.mem_singleton] at hQ
    subst hQ
    have hCspi : C = spi := claimer_unique hInv hC hspirun hmisoSpi
    rw [hCspi]
    exact hspidle
  obtain ⟨sA, hsA, hAspi, hAdrdy, hAact, hAactOther, hApins, hAclaimIn, hAclaimOut⟩ :=
    enter_displaces_idle s spi drdy miso hInv hneq hmisoSpi hmisoDrdy
      hspirun hdun hquiet1
  have hInvA : Inv sA := by
    have := inv_enterRes hInv hdrdyN
    rw [hsA] at this
    exact this
  refine ⟨sA, hsA, ?_, ?_, ?_⟩
  · unfold is_running
    rw [hAspi]
    rfl
  · unfold is_running
    rw [hAdrdy]
    rfl
  · -- read-back phase: re-entering the SPI device displaces the DRDY device
    have hAactDrdy : (sA.devs drdy).active = 1 := by
      rw [hAact, hdact]
      decide
    have hInvT : Inv (exitDev sA drdy) :=
      inv_exitDev hInvA (by rw [hAactDrdy]; omega)
    have hTpinsSpi : ((exitDev sA drdy).devs spi).pins = [sck, mosi, miso] := by
      rw [exitDev_devs_pins, hApins, hspins]
    have hTpinsDrdy : ((exitDev sA drdy).devs drdy).pins = [miso] := by
      rw [exitDev_devs_pins, hApins, hdpins]
    have hTdrdyRun : ((exitDev sA drdy).devs drdy).inst.isSome = true := by
      rw [exitDev_devs_inst, hAdrdy]
      rfl
    have hTspiUn : ((exitDev sA drdy).devs spi).inst.isSome = false := by
      rw [exitDev_devs_inst, hAspi]
      rfl
    have hTdrdyIdle : ((exitDev sA drdy).devs drdy).active = 0 := by
      rw [exitDev_devs, if_pos rfl]
      simp only
      rw [hAactDrdy]
      decide
    have hquiet2 : ∀ Q ∈ ((exitDev sA drdy).devs spi).pins, ∀ C,
        (exitDev sA drdy).claimer Q = some C →
        ((exitDev sA drdy).devs C).active = 0 := by
      intro Q hQ C hC
      rw [exitDev_claimer] at hC
      rw [hTpinsSpi] at hQ
      by_cases hQd : Q ∈ (s.devs drdy).pins
      · -- Q = miso, claimed by the DRDY device, which is idle after its exit
        have := hAclaimIn Q hQd
        rw [this] at hC
        have hCd : C = drdy := (Option.some.inj hC).symm
        subst hCd
        exact hTdrdyIdle
      · -- Q claimed as before the polling phase: only the idle SPI device
        rcases hAclaimOut Q hQd with hsame | hnone
        · rw [hsame] at hC
          have hQspi : Q ∈ (s.devs spi).pins := by rw [hspins]; exact hQ
          have hCspi : C = spi := claimer_unique hInv hC hspirun hQspi
          subst hCspi
          rw [exitDev_devs_active_ne sA drdy C hneq, hAactOther C hneq]
          exact hspidle
        · rw [hnone] at hC
          exact Option.noConfusion hC
    obtain ⟨sB, hsB, hBdrdy, hBspi, _, _, _, _, _⟩ :=
      enter_displaces_idle (exitDev sA drdy) drdy spi miso hInvT
        (Ne.symm hneq) (by rw [hTpinsDrdy]; simp) (by rw [hTpinsSpi]; simp)
        hTdrdyRun hTspiUn hquiet2
    refine ⟨sB, hsB, ?_, ?_⟩
    · unfold is_running
      rw [hBdrdy]
      rfl
    · unfold is_running
      rw [hBspi]
      rfl

/-- The state of the pin manager after `Ads1118.__init__(sck=10, mosi=11,
miso=12, ss=13)` (SPI device 0, DRDY device 1, SS device 2, SS configured
through a scope) followed by the config-send phase of `take_sample`
(`with self.spi_bus as spi, self.ss_gpio as ss: ...`): the SPI device is
bound and idle, the DRDY device not yet bound. -/
def c10WitState : PM :=
  exitDev (exitDev (enterRes (enterRes (exitDev (enterRes (createDev
    (createDev (createDev initPM [10, 11, 12] 0).1 [12] 1).1
    [13] 1).1 2).1 2) 0).1 2).1 2) 0

/-- Witness for `miso_contention` at the concrete post-constructor state. -/
theorem miso_contention_witness :
    ∃ s', enterRes c10WitState 1 = (s', none) ∧
      is_running s' 0 = false ∧ is_running s' 1 = true ∧
      ∃ s'', enterRes (exitDev s' 1) 0 = (s'', none) ∧
        is_running s'' 1 = false ∧ is_running s'' 0 = true :=
  miso_contention c10WitState 0 1 10 11 12
    (reachable_inv
      (Reachable.step
        (Reachable.step
          (Reachable.step
            (Reachable.step
              (Reachable.step
                (Reachable.step
                  (Reachable.step
                    (Reachable.step
                      (Reachable.step Reachable.init
                        (Step.create initPM [10, 11, 12] 0))
                      (Step.create _ [12] 1))
                    (Step.create _ [13] 1))
                  (Step.enter _ 2 (by decide)))
                (Step.exitScope _ 2 (by decide) (by decide)))
              (Step.enter _ 0 (by decide)))
            (Step.enter _ 2 (by decide)))
          (Step.exitScope _ 2 (by decide) (by decide)))
        (Step.exitScope _ 0 (by decide) (by decide))))
    (by decide) (by decide) (by decide) (by decide) (by decide)
    (by decide) (by decide) (by decide)

/-- Witness for `device_creation_cached`: repeating the creation of the
device on the already-seen pin 0 performs no hardware construction. -/
theorem device_creation_cached_witness :
    (∀ p ∈ ([0] : List ℕ), p ∈ ((createDev initPM [0] 0).1).pinsSeen) ∧
    (createDev (createDev initPM [0] 0).1 [0] 0).1.hwCount =
      (createDev initPM [0] 0).1.hwCount :=
  ⟨by decide,
   (device_creation_cached (createDev initPM [0] 0).1 [0] 0).2.2.2 (by decide)⟩

/-- C8 counterexample: creating a device on a never-before-seen pin runs a
hardware constructor (the fresh pin's `_DefaultPinClaimer` builds a
`digitalio.DigitalInOut` in its `__init__`), refuting "device creation
performs no hardware side effects"; the created device's own instance is
nonetheless left unbound (the producer is not invoked). -/
theorem device_creation_counterexample :
    initPM.hwCount = 0 ∧ (createDev initPM [0] 0).1.hwCount = 1 ∧
    ((createDev initPM [0] 0).1.devs (createDev initPM [0] 0).2).inst = none := by
  decide

end RapidCDH
